import Mathlib

/-!
Verification of the agent orchestration and tool-execution engine of an
in-browser AI coding assistant.

The development shallowly embeds the core logic of the engine:

* `Js` — a model of JavaScript strings as lists of characters, with the
  line-splitting and slicing primitives the tool handlers use
  (`String.prototype.split('\n')`, `Array.prototype.slice`, `join('\n')`).
* `DiffEngine` — the line-granularity diff/patch engine.  The concrete
  implementation in the repository delegates to the bundled third-party
  `diff_match_patch` library, whose source is not part of the core files;
  the engine here is modelled from the specification (line tokenization,
  LCS-style matching, hunks applied with exact-offset matching and
  per-hunk success reporting).
* `ToolExec` — the tool registry, the dispatcher (`executeTool` /
  `execute`), the automatic checkpoint manager, the markdown code-fence
  stripper, and the pure content transformations of the file-editing
  tools (`tool_executor.js`).
* `Tracker` — the consecutive-error circuit breaker
  (`chat_service.js` / the post-edit syntax check of `tool_executor.js`).
* `TurnLoop` — the conversation turn controller of `gemini_chat.js`
  (`sendMessage` retry/cancellation loop) together with the API key
  rotation state of `api_manager.js`.
-/

deriving instance DecidableEq for Except

namespace Js

/-- A JavaScript string, modelled as its sequence of characters. -/
abbrev JStr := List Char

/-- The backtick character (won by `Char.ofNat 96`). -/
def backtick : Char := Char.ofNat 96

/-- `content.split('\n')`: split a string at every newline.  Mirrors the
JavaScript semantics: splitting the empty string yields `[""]`, and a
trailing newline yields a trailing empty field. -/
def splitNl : JStr → List JStr
  | [] => [[]]
  | c :: rest =>
    if c = '\n' then [] :: splitNl rest
    else
      match splitNl rest with
      | [] => [[c]]
      | l :: ls => (c :: l) :: ls

/-- `lines.join('\n')`: interleave a newline between the fields. -/
def joinNl : List JStr → JStr
  | [] => []
  | [l] => l
  | l :: ls => l ++ '\n' :: joinNl ls

theorem splitNl_ne_nil (s : JStr) : splitNl s ≠ [] := by
  cases s with
  | nil => simp [splitNl]
  | cons c rest =>
    simp only [splitNl]
    split
    · simp
    · split <;> simp

theorem joinNl_cons_cons (l l' : JStr) (ls : List JStr) :
    joinNl (l :: l' :: ls) = l ++ '\n' :: joinNl (l' :: ls) := rfl

/-- Splitting on newlines and joining with newlines is the identity. -/
theorem joinNl_splitNl (s : JStr) : joinNl (splitNl s) = s := by
  induction s with
  | nil => rfl
  | cons c rest ih =>
    simp only [splitNl]
    split
    · rename_i hc
      subst hc
      obtain ⟨l, ls, hls⟩ : ∃ l ls, splitNl rest = l :: ls := by
        cases h : splitNl rest with
        | nil => exact absurd h (splitNl_ne_nil rest)
        | cons l ls => exact ⟨l, ls, rfl⟩
      rw [hls] at ih ⊢
      rw [joinNl_cons_cons]
      simp [ih]
    · cases h : splitNl rest with
      | nil => exact absurd h (splitNl_ne_nil rest)
      | cons l ls =>
        rw [h] at ih
        cases ls with
        | nil => simpa [joinNl] using congrArg (c :: ·) ih
        | cons l' ls' =>
          rw [joinNl_cons_cons] at ih ⊢
          simpa using congrArg (c :: ·) ih

/-- The index arithmetic of `Array.prototype.slice`: a negative index
counts back from the end (clamped at 0), a nonnegative index is clamped
to the length. -/
def jsIndex (len : Nat) (i : Int) : Nat :=
  if i < 0 then ((len : Int) + i).toNat else min i.toNat len

/-- `l.slice(s, e)` of JavaScript arrays. -/
def jsSlice {α : Type} (l : List α) (s e : Int) : List α :=
  (l.take (jsIndex l.length e)).drop (jsIndex l.length s)

end Js

namespace DiffEngine

open Js

/-- One line-level edit step of the diff script. -/
inductive Edit (α : Type) where
  | keep : α → Edit α
  | del : α → Edit α
  | ins : α → Edit α
deriving DecidableEq

/-- Number of non-`keep` steps of a script (the cost minimized by
LCS-style matching). -/
def editCost {α : Type} (es : List (Edit α)) : Nat :=
  (es.filter fun e => match e with | .keep _ => false | _ => true).length

/-- Fuel-indexed worker for `diff`; each recursive call shrinks the
combined length by at least one, so `diff` always supplies enough fuel
for the fallback (delete everything, insert everything) never to fire. -/
def diffFuel {α : Type} [DecidableEq α] : Nat → List α → List α → List (Edit α)
  | 0, xs, ys => xs.map .del ++ ys.map .ins
  | fuel + 1, xs0, ys0 =>
    match xs0, ys0 with
    | [], ys => ys.map .ins
    | xs, [] => xs.map .del
    | x :: xs, y :: ys =>
      if x = y then .keep x :: diffFuel fuel xs ys
      else
        let d1 := .del x :: diffFuel fuel xs (y :: ys)
        let d2 := .ins y :: diffFuel fuel (x :: xs) ys
        if editCost d1 ≤ editCost d2 then d1 else d2

/-- Modelled from the spec: the line-granularity diff of the Diff/Patch
Engine (the repository delegates to the bundled `diff_match_patch`
library, not part of the core sources).  Both inputs are sequences of
lines; matching is LCS-style: common lines are kept, and otherwise the
cheaper of delete-first and insert-first is chosen. -/
def diff {α : Type} [DecidableEq α] (xs ys : List α) : List (Edit α) :=
  diffFuel (xs.length + ys.length) xs ys

/-- Replay a diff script against the sequence it was computed from. -/
def applyEdits {α : Type} [DecidableEq α] : List (Edit α) → List α → Option (List α)
  | [], [] => some []
  | [], _ :: _ => none
  | .keep a :: es, x :: xs => if a = x then (applyEdits es xs).map (x :: ·) else none
  | .keep _ :: _, [] => none
  | .del a :: es, x :: xs => if a = x then applyEdits es xs else none
  | .del _ :: _, [] => none
  | .ins a :: es, xs => (applyEdits es xs).map (a :: ·)

theorem applyEdits_map_ins {α : Type} [DecidableEq α] (ys : List α) :
    applyEdits (ys.map .ins) [] = some ys := by
  induction ys with
  | nil => rfl
  | cons y ys ih => simp [applyEdits, ih]

theorem applyEdits_map_del {α : Type} [DecidableEq α] (xs : List α) :
    applyEdits (xs.map .del) xs = some [] := by
  induction xs with
  | nil => rfl
  | cons x xs ih => simp [applyEdits, ih]

theorem applyEdits_del_append_ins {α : Type} [DecidableEq α] (xs ys : List α) :
    applyEdits (xs.map .del ++ ys.map .ins) xs = some ys := by
  induction xs with
  | nil => simpa using applyEdits_map_ins ys
  | cons x xs ih => simp [applyEdits, ih]

theorem applyEdits_diffFuel {α : Type} [DecidableEq α] :
    ∀ (fuel : Nat) (xs ys : List α), applyEdits (diffFuel fuel xs ys) xs = some ys := by
  intro fuel
  induction fuel with
  | zero => exact fun xs ys => applyEdits_del_append_ins xs ys
  | succ fuel ih =>
    intro xs ys
    cases xs with
    | nil => rw [diffFuel]; exact applyEdits_map_ins ys
    | cons x xs =>
      cases ys with
      | nil =>
        rw [diffFuel]
        exact applyEdits_map_del (x :: xs)
        simp
      | cons y ys =>
        rw [diffFuel]
        split
        · rename_i hxy
          subst hxy
          simp [applyEdits, ih xs ys]
        · simp only
          split
          · simp [applyEdits, ih xs (y :: ys)]
          · simp [applyEdits, ih (x :: xs) ys]

/-- Replaying the diff of `xs` against `ys` on `xs` reconstructs `ys`. -/
theorem applyEdits_diff {α : Type} [DecidableEq α] (xs ys : List α) :
    applyEdits (diff xs ys) xs = some ys :=
  applyEdits_diffFuel (xs.length + ys.length) xs ys

/-- A contiguous change region of a patch.  `pos` is the number of
unchanged lines between the end of the previous hunk (or the start of
the blob) and this hunk; `removed` are the original lines it deletes and
`inserted` the lines it puts in their place. -/
structure Hunk (α : Type) where
  pos : Nat
  removed : List α
  inserted : List α
deriving DecidableEq

/-- Shift the first hunk one unchanged line further away. -/
def bumpPos {α : Type} : List (Hunk α) → List (Hunk α)
  | [] => []
  | h :: hs => { h with pos := h.pos + 1 } :: hs


/-- Prepend a deleted line, merging with an immediately following hunk. -/
def consRemoved {α : Type} (a : α) : List (Hunk α) → List (Hunk α)
  | [] => [⟨0, [a], []⟩]
  | h0 :: hs =>
    if h0.pos = 0 then ⟨0, a :: h0.removed, h0.inserted⟩ :: hs
    else ⟨0, [a], []⟩ :: h0 :: hs

/-- Prepend an inserted line, merging with an immediately following hunk. -/
def consInserted {α : Type} (a : α) : List (Hunk α) → List (Hunk α)
  | [] => [⟨0, [], [a]⟩]
  | h0 :: hs =>
    if h0.pos = 0 then ⟨0, h0.removed, a :: h0.inserted⟩ :: hs
    else ⟨0, [], [a]⟩ :: h0 :: hs

/-- Group the maximal runs of non-`keep` steps of a diff script into
hunks, recording the gap of kept lines before each hunk. -/
def toHunks {α : Type} : List (Edit α) → List (Hunk α)
  | [] => []
  | .keep _ :: es => bumpPos (toHunks es)
  | .del a :: es => consRemoved a (toHunks es)
  | .ins a :: es => consInserted a (toHunks es)

/-- Apply a patch hunk by hunk.  Each hunk first requires an
exact-offset match (the position exists and the removed lines are found
verbatim there); a hunk that cannot be located is reported failed and the
remaining hunks are still attempted.  Returns the patched sequence and
the per-hunk success flags. -/
def applyHunks {α : Type} [DecidableEq α] : List (Hunk α) → List α → List α × List Bool
  | [], xs => (xs, [])
  | h :: hs, xs =>
    if (xs.take h.pos).length = h.pos ∧ (xs.drop h.pos).take h.removed.length = h.removed then
      let r := applyHunks hs ((xs.drop h.pos).drop h.removed.length)
      (xs.take h.pos ++ h.inserted ++ r.1, true :: r.2)
    else
      let r := applyHunks hs xs
      (r.1, false :: r.2)

theorem applyHunks_bumpPos {α : Type} [DecidableEq α] (hs : List (Hunk α)) (xs r : List α)
    (h : applyHunks hs xs = (r, List.replicate hs.length true)) (x : α) :
    applyHunks (bumpPos hs) (x :: xs) = (x :: r, List.replicate hs.length true) := by
  cases hs with
  | nil =>
    simp only [applyHunks, List.length_nil, List.replicate, Prod.mk.injEq] at h
    simp [bumpPos, applyHunks, h.1]
  | cons h0 hs' =>
    obtain ⟨p, rem, ins⟩ := h0
    rw [applyHunks] at h
    split at h
    · rename_i hcond
      simp only [Prod.mk.injEq, List.length_cons, List.replicate_succ, List.cons.injEq,
        true_and] at h
      rw [bumpPos, applyHunks,
        if_pos (by simpa [List.take_succ_cons, List.drop_succ_cons] using hcond)]
      simp only [List.take_succ_cons, List.drop_succ_cons, List.cons_append,
        Prod.mk.injEq, List.length_cons, List.replicate_succ, List.cons.injEq, true_and]
      exact ⟨by rw [h.1], h.2⟩
    · exfalso
      have hsnd := congrArg Prod.snd h
      simp [List.replicate_succ] at hsnd

theorem applyHunks_consRemoved {α : Type} [DecidableEq α] (hs : List (Hunk α)) (xs r : List α)
    (h : applyHunks hs xs = (r, List.replicate hs.length true)) (a : α) :
    applyHunks (consRemoved a hs) (a :: xs)
      = (r, List.replicate (consRemoved a hs).length true) := by
  cases hs with
  | nil =>
    simp only [applyHunks, List.length_nil, List.replicate, Prod.mk.injEq] at h
    simp [consRemoved, applyHunks, h.1]
  | cons h0 hs' =>
    obtain ⟨p, rem2, ins2⟩ := h0
    by_cases hp : p = 0
    · subst hp
      rw [applyHunks] at h
      split at h
      · rename_i hcond
        simp only [List.take_zero, List.length_nil, List.drop_zero] at hcond
        simp only [Prod.mk.injEq, List.length_cons, List.replicate_succ, List.cons.injEq,
          true_and, List.take_zero, List.nil_append, List.drop_zero] at h
        rw [consRemoved, if_pos rfl, applyHunks,
          if_pos (by simp [hcond.2])]
        simp only [List.take_zero, List.nil_append, List.length_cons, List.drop_zero,
          List.drop_succ_cons, List.replicate_succ, Prod.mk.injEq, List.cons.injEq, true_and]
        exact ⟨h.1, h.2⟩
      · exfalso
        have hsnd := congrArg Prod.snd h
        simp [List.replicate_succ] at hsnd
    · rw [consRemoved, if_neg hp, applyHunks]
      split
      · simp [h, List.replicate_succ]
      · rename_i hcond
        exact absurd ⟨rfl, rfl⟩ hcond

theorem applyHunks_consInserted {α : Type} [DecidableEq α] (hs : List (Hunk α)) (xs r : List α)
    (h : applyHunks hs xs = (r, List.replicate hs.length true)) (a : α) :
    applyHunks (consInserted a hs) xs
      = (a :: r, List.replicate (consInserted a hs).length true) := by
  cases hs with
  | nil =>
    simp only [applyHunks, List.length_nil, List.replicate, Prod.mk.injEq] at h
    simp [consInserted, applyHunks, h.1]
  | cons h0 hs' =>
    obtain ⟨p, rem2, ins2⟩ := h0
    by_cases hp : p = 0
    · subst hp
      rw [applyHunks] at h
      split at h
      · rename_i hcond
        simp only [List.take_zero, List.length_nil, List.drop_zero] at hcond
        simp only [Prod.mk.injEq, List.length_cons, List.replicate_succ, List.cons.injEq,
          true_and, List.take_zero, List.nil_append, List.drop_zero] at h
        rw [consInserted, if_pos rfl, applyHunks,
          if_pos (by simp [hcond.2])]
        simp [← h.1, h.2, List.replicate_succ]
      · exfalso
        have hsnd := congrArg Prod.snd h
        simp [List.replicate_succ] at hsnd
    · rw [consInserted, if_neg hp, applyHunks]
      split
      · simp [h, List.replicate_succ]
      · rename_i hcond
        exact absurd ⟨rfl, rfl⟩ hcond

theorem bumpPos_length {α : Type} (hs : List (Hunk α)) :
    (bumpPos hs).length = hs.length := by
  cases hs <;> simp [bumpPos]

/-- Replaying a diff script hunk by hunk gives the same result as
replaying it edit by edit, with every hunk succeeding. -/
theorem applyHunks_toHunks {α : Type} [DecidableEq α] :
    ∀ (es : List (Edit α)) (xs ys : List α), applyEdits es xs = some ys →
      applyHunks (toHunks es) xs = (ys, List.replicate (toHunks es).length true)
  | [], xs, ys, h => by
    cases xs with
    | nil => simp only [applyEdits, Option.some.injEq] at h; simp [toHunks, applyHunks, h]
    | cons x xs' => simp [applyEdits] at h
  | .keep a :: es, xs, ys, h => by
    cases xs with
    | nil => simp [applyEdits] at h
    | cons x xs' =>
      rw [applyEdits] at h
      split at h
      · rename_i hax
        subst hax
        obtain ⟨ys', hys', rfl⟩ : ∃ ys', applyEdits es xs' = some ys' ∧ ys = a :: ys' := by
          cases hrec : applyEdits es xs' with
          | none => rw [hrec] at h; simp at h
          | some v => rw [hrec] at h; simp at h; exact ⟨v, rfl, h.symm⟩
        have hmain := applyHunks_bumpPos (toHunks es) xs' ys'
          (applyHunks_toHunks es xs' ys' hys') a
        rw [toHunks, bumpPos_length]
        exact hmain
      · simp at h
  | .del a :: es, xs, ys, h => by
    cases xs with
    | nil => simp [applyEdits] at h
    | cons x xs' =>
      rw [applyEdits] at h
      split at h
      · rename_i hax
        subst hax
        rw [toHunks]
        exact applyHunks_consRemoved (toHunks es) xs' ys
          (applyHunks_toHunks es xs' ys h) a
      · simp at h
  | .ins a :: es, xs, ys, h => by
    rw [applyEdits] at h
    obtain ⟨ys', hys', rfl⟩ : ∃ ys', applyEdits es xs = some ys' ∧ ys = a :: ys' := by
      cases hrec : applyEdits es xs with
      | none => rw [hrec] at h; simp at h
      | some v => rw [hrec] at h; simp at h; exact ⟨v, rfl, h.symm⟩
    rw [toHunks]
    exact applyHunks_consInserted (toHunks es) xs ys'
      (applyHunks_toHunks es xs ys' hys') a

/-- `makePatch(original, target)`: tokenize both blobs into lines, diff
them LCS-style, and group the changes into hunks. -/
def makePatch (original target : JStr) : List (Hunk JStr) :=
  toHunks (diff (splitNl original) (splitNl target))

/-- `applyPatch(patch, original)`: apply the hunks to the line-split
original and rejoin, reporting per-hunk success. -/
def applyPatch (patch : List (Hunk JStr)) (original : JStr) : JStr × List Bool :=
  let r := applyHunks patch (splitNl original)
  (joinNl r.1, r.2)

/-- Round trip of the engine: applying the patch made from `A` and `B`
back onto `A` yields exactly `B`, every hunk succeeding. -/
theorem applyPatch_makePatch (A B : JStr) :
    applyPatch (makePatch A B) A = (B, List.replicate (makePatch A B).length true) := by
  have h := applyHunks_toHunks (diff (splitNl A) (splitNl B)) (splitNl A) (splitNl B)
    (applyEdits_diff (splitNl A) (splitNl B))
  unfold applyPatch makePatch
  rw [h]
  simp [joinNl_splitNl]

end DiffEngine

namespace ToolExec

open Js DiffEngine

/-- JavaScript regex `\w`: ASCII letters, digits and underscore. -/
def isWordCharJs (c : Char) : Bool := c.isAlphanum || c = '_'

/-- The four characters closing a fenced block: a newline followed by
three backticks. -/
def fenceClose : JStr := '\n' :: backtick :: backtick :: backtick :: []

/-- `stripMarkdownCodeBlock`: the regex
`^&grave;&grave;&grave;(?:\w+)?\n([\s\S]+)\n&grave;&grave;&grave;$`
applied to the whole content; on a match only the captured inner code is
returned, otherwise the content is returned unchanged.  The greedy
capture group makes the inner code run up to the final
newline-plus-three-backticks suffix. -/
def stripMarkdownCodeBlock (content : JStr) : JStr :=
  match content with
  | b1 :: b2 :: b3 :: rest =>
    if b1 = backtick ∧ b2 = backtick ∧ b3 = backtick then
      match rest.dropWhile isWordCharJs with
      | '\n' :: body =>
        if 5 ≤ body.length ∧ body.drop (body.length - 4) = fenceClose then
          body.take (body.length - 4)
        else content
      | _ => content
    else content
  | _ => content

/-- A string that is entirely wrapped in a markdown code fence: an
opening fence with an optional language word, a newline, a non-empty
inner code, and a closing fence on its own final line. -/
def fenceWrap (lang inner : JStr) : JStr :=
  backtick :: backtick :: backtick :: (lang ++ '\n' :: (inner ++ fenceClose))

def IsFencedWrapped (content : JStr) : Prop :=
  ∃ lang inner, lang.all isWordCharJs = true ∧ inner ≠ [] ∧ content = fenceWrap lang inner

theorem strip_fenceWrap (lang inner : JStr) (hlang : lang.all isWordCharJs = true)
    (hinner : inner ≠ []) :
    stripMarkdownCodeBlock (fenceWrap lang inner) = inner := by
  have hdw : (lang ++ '\n' :: (inner ++ fenceClose)).dropWhile isWordCharJs
      = '\n' :: (inner ++ fenceClose) := by
    rw [List.dropWhile_append]
    have h1 : lang.dropWhile isWordCharJs = [] :=
      List.dropWhile_eq_nil_iff.mpr (by simp [← List.all_eq_true, hlang])
    rw [h1]
    simp [List.dropWhile_cons, isWordCharJs, backtick]
  have hlen : (inner ++ fenceClose).length = inner.length + 4 := by
    simp [fenceClose]
  have hlenpos : 1 ≤ inner.length := by
    cases inner with
    | nil => exact absurd rfl hinner
    | cons _ _ => simp
  rw [fenceWrap, stripMarkdownCodeBlock]
  rw [if_pos ⟨rfl, rfl, rfl⟩]
  rw [hdw]
  split
  · rename_i body hbody
    obtain rfl : inner ++ fenceClose = body := by
      exact (List.cons.injEq _ _ _ _ ▸ hbody).2
    have hdrop : (inner ++ fenceClose).drop ((inner ++ fenceClose).length - 4) = fenceClose := by
      rw [hlen]
      simpa using List.drop_left inner fenceClose
    rw [if_pos ⟨by omega, hdrop⟩]
    rw [hlen]
    simpa using List.take_left inner fenceClose
  · rename_i hne
    exact absurd rfl (hne (inner ++ fenceClose))

theorem strip_eq_self_of_not_fenced (content : JStr) (h : ¬ IsFencedWrapped content) :
    stripMarkdownCodeBlock content = content := by
  cases content with
  | nil => rfl
  | cons b1 t1 =>
  cases t1 with
  | nil => rfl
  | cons b2 t2 =>
  cases t2 with
  | nil => rfl
  | cons b3 rest =>
  rw [stripMarkdownCodeBlock]
  split
  · rename_i hbt
    obtain ⟨hb1, hb2, hb3⟩ := hbt
    subst hb1; subst hb2; subst hb3
    split
    · rename_i body hdw
      split
      · rename_i hcond
        exfalso
        apply h
        refine ⟨rest.takeWhile isWordCharJs, body.take (body.length - 4), ?_, ?_, ?_⟩
        · simp only [List.all_eq_true]
          exact fun x hx => List.mem_takeWhile_imp hx
        · intro hnil
          have hlt := congrArg List.length hnil
          simp only [List.length_take, List.length_nil] at hlt
          omega
        · rw [fenceWrap]
          have hrest : rest = rest.takeWhile isWordCharJs ++ ('\n' :: body) := by
            conv_lhs => rw [← List.takeWhile_append_dropWhile isWordCharJs rest]
            rw [hdw]
          have hbody : body = body.take (body.length - 4) ++ fenceClose := by
            conv_lhs => rw [← List.take_append_drop (body.length - 4) body]
            rw [hcond.2]
          conv_lhs => rw [hrest, hbody]
      · rfl
    · rfl
  · rfl

/-- What `create_file` writes to the new file: the fence-stripped
content. -/
def createFileContent (content : JStr) : JStr := stripMarkdownCodeBlock content

/-- What `rewrite_file` writes over the file: the fence-stripped
content. -/
def rewriteFileContent (content : JStr) : JStr := stripMarkdownCodeBlock content

/-- What `replace_selected_text` places over the editor selection: the
fence-stripped text. -/
def replaceSelectedText (newText : JStr) : JStr := stripMarkdownCodeBlock newText

/-- The splice step of `insert_content` on content already through the
stripper: insert the block at index `max 0 (line_number - 1)` of the
line array and rejoin. -/
def insertContentCore (original : JStr) (lineNumber : Int) (cleanContent : JStr) : JStr :=
  let lines := splitNl original
  let insertionPoint := (max 0 (lineNumber - 1)).toNat
  joinNl (lines.take insertionPoint ++ cleanContent :: lines.drop insertionPoint)

/-- The file content `insert_content` writes: the fence-stripped content
spliced in as a single block. -/
def insertContentResult (original : JStr) (lineNumber : Int) (content : JStr) : JStr :=
  insertContentCore original lineNumber (stripMarkdownCodeBlock content)

/-- The splice step of `replace_lines` on content already through the
stripper: the lines strictly before `start_line` and strictly after
`end_line` around the new content split into its own lines. -/
def replaceLinesCore (original : JStr) (startLine endLine : Int) (cleanContent : JStr) :
    Except String JStr :=
  if startLine > endLine then .error "The start_line must not be after the end_line."
  else
    let lines := splitNl original
    let before := jsSlice lines 0 (startLine - 1)
    let after := lines.drop (jsIndex lines.length endLine)
    .ok (joinNl (before ++ splitNl cleanContent ++ after))

/-- The file content `replace_lines` writes: the fence-stripped new
content spliced over the requested line range. -/
def replaceLinesResult (original : JStr) (startLine endLine : Int) (newContent : JStr) :
    Except String JStr :=
  replaceLinesCore original startLine endLine (stripMarkdownCodeBlock newContent)

/-- Result of the combined create-and-apply edit: which method was used,
the content finally written, and whether the diff path was entered at
all. -/
structure EditOutcome where
  method : String
  finalContent : JStr
  attemptedDiff : Bool
deriving DecidableEq

/-- The large-file threshold of `_createAndApplyDiff` (250 KB). -/
def LARGE_FILE_THRESHOLD_BYTES : Nat := 250000

/-- `_createAndApplyDiff`, factored over the fence-stripped content:
given the size threshold, the current file content (whose length models
`file.size`) and the cleaned new content, either skip diffing entirely
(file over the threshold), or build and apply a patch in-process,
falling back to a full rewrite when no patch could be built for
genuinely different content or when any hunk fails. -/
def createAndApplyDiffCore (threshold : Nat) (originalContent clean : JStr) : EditOutcome :=
  if originalContent.length > threshold then
    { method := "rewrite", finalContent := clean, attemptedDiff := false }
  else
    let patches := makePatch originalContent clean
    if patches.length = 0 ∧ originalContent ≠ clean then
      { method := "rewrite", finalContent := clean, attemptedDiff := true }
    else
      let applied := applyPatch patches originalContent
      if applied.2.any (fun hunkOk => !hunkOk) then
        { method := "rewrite", finalContent := clean, attemptedDiff := true }
      else
        { method := "diff", finalContent := applied.1, attemptedDiff := true }

/-- `_createAndApplyDiff` proper: the policy above applied to the
fence-stripped requested content. -/
def createAndApplyDiff (threshold : Nat) (originalContent newContent : JStr) : EditOutcome :=
  createAndApplyDiffCore threshold originalContent (stripMarkdownCodeBlock newContent)

/-- The `create_and_apply_diff` tool itself: the policy at the
threshold hard-coded in the source. -/
def createAndApplyDiffTool (originalContent newContent : JStr) : EditOutcome :=
  createAndApplyDiff LARGE_FILE_THRESHOLD_BYTES originalContent newContent

/-- `_readFileLines`: reject a reversed range, clamp the endpoints to
the file, return the empty content when the clamped range is empty, and
otherwise slice and rejoin the requested lines. -/
def readFileLines (content : JStr) (startLine endLine : Int) : Except String JStr :=
  if startLine > endLine then .error "The start_line must not be after the end_line."
  else
    let lines := splitNl content
    let clampedStart := max 1 startLine
    let clampedEnd := min (lines.length : Int) endLine
    if clampedStart > clampedEnd then .ok []
    else .ok (joinNl (jsSlice lines (clampedStart - 1) clampedEnd))

/-- The behaviour of `read_file_lines` as the claim states it: clamp the
requested range to `[1, number of lines]`, return the joined lines of
the clamped range, and the empty content when the clamped range is
empty. -/
def readFileLinesSpec (content : JStr) (startLine endLine : Int) : JStr :=
  let lines := splitNl content
  let lo := max 1 startLine
  let hi := min (lines.length : Int) endLine
  if lo > hi then []
  else joinNl ((lines.drop (lo - 1).toNat).take (hi - lo + 1).toNat)

/-- A registered tool: its precondition flag and whether a checkpoint is
taken before it runs (the mutating-state capability). -/
structure ToolDescriptor where
  requiresProject : Bool
  createsCheckpoint : Bool
deriving DecidableEq

/-- The tool registry, transcribed entry by entry from the source. -/
def toolRegistry : List (String × ToolDescriptor) :=
  [ ("get_project_structure", ⟨true, false⟩),
    ("read_file", ⟨true, false⟩),
    ("read_file_lines", ⟨true, false⟩),
    ("search_in_file", ⟨true, false⟩),
    ("read_multiple_files", ⟨true, false⟩),
    ("search_code", ⟨true, false⟩),
    ("build_or_update_codebase_index", ⟨true, false⟩),
    ("query_codebase", ⟨true, false⟩),
    ("reindex_codebase_paths", ⟨true, false⟩),
    ("format_code", ⟨true, false⟩),
    ("analyze_code", ⟨true, false⟩),
    ("get_file_history", ⟨true, false⟩),
    ("run_terminal_command", ⟨true, false⟩),
    ("create_file", ⟨true, true⟩),
    ("rewrite_file", ⟨true, true⟩),
    ("delete_file", ⟨true, true⟩),
    ("rename_file", ⟨true, true⟩),
    ("insert_content", ⟨true, true⟩),
    ("apply_diff", ⟨true, true⟩),
    ("replace_lines", ⟨true, true⟩),
    ("create_and_apply_diff", ⟨true, true⟩),
    ("create_folder", ⟨true, true⟩),
    ("delete_folder", ⟨true, true⟩),
    ("rename_folder", ⟨true, true⟩),
    ("read_url", ⟨false, false⟩),
    ("duckduckgo_search", ⟨false, false⟩),
    ("get_open_file_content", ⟨false, false⟩),
    ("get_selected_text", ⟨false, false⟩),
    ("replace_selected_text", ⟨false, false⟩),
    ("set_selected_text", ⟨false, false⟩),
    ("create_diff", ⟨false, false⟩) ]

/-- `toolRegistry[toolName]` of the source. -/
def lookupTool (name : String) : Option ToolDescriptor :=
  (toolRegistry.find? fun entry => entry.1 = name).map (fun entry => entry.2)

/-- A checkpoint record as saved by the checkpoint manager. -/
structure CheckpointRecord where
  name : String
  openFiles : List String
  timestamp : Nat
deriving DecidableEq

/-- The editor state observed when checkpointing: the set of open
files. -/
structure EditorStateM where
  openFiles : List String
deriving DecidableEq

/-- `createAutomaticCheckpoint`: save a record when at least one file is
open; a failure of the store is caught and logged and never escapes.
Returns the store and the error log entries. -/
def createAutomaticCheckpoint (es : EditorStateM) (timestamp : Nat) (saveFails : Bool)
    (store : List CheckpointRecord) : List CheckpointRecord × List String :=
  if 0 < es.openFiles.length then
    if saveFails then (store, ["Failed to create automatic checkpoint"])
    else (store ++ [{ name := "Auto-Checkpoint", openFiles := es.openFiles,
                      timestamp := timestamp }], [])
  else (store, [])

/-- What a tool handler does when invoked: return a payload or throw. -/
inductive HandlerOutcome where
  | ok : String → HandlerOutcome
  | thrown : String → HandlerOutcome
deriving DecidableEq

/-- The structured response body fed back to the model. -/
inductive ToolResponseBody where
  | success : String → ToolResponseBody
  | error : String → ToolResponseBody
deriving DecidableEq

/-- Observable steps of a dispatch, in execution order. -/
inductive ExecEvent where
  | checkpointAttempt : ExecEvent
  | handlerRun : String → ExecEvent
deriving DecidableEq

/-- `executeTool`: look the tool up (an unknown name throws, modelled by
`Except.error`), refuse to run project tools without a workspace (a
structured error, not a throw), take the automatic checkpoint before
running the handler of a mutating tool, then run the handler (whose own
throw propagates). -/
def executeTool (toolName : String) (hasRoot : Bool) (es : EditorStateM) (timestamp : Nat)
    (saveFails : Bool) (handler : HandlerOutcome) (store : List CheckpointRecord) :
    List CheckpointRecord × List String × List ExecEvent × Except String ToolResponseBody :=
  match lookupTool toolName with
  | none => (store, [], [], .error ("Unknown tool " ++ toolName ++ "."))
  | some tool =>
    if tool.requiresProject ∧ ¬hasRoot then
      (store, [], [],
        .ok (.error "No project folder is open. Please ask the user to open a folder before using this tool."))
    else
      let afterCp :=
        if tool.createsCheckpoint then createAutomaticCheckpoint es timestamp saveFails store
        else (store, [])
      let events :=
        (if tool.createsCheckpoint then [ExecEvent.checkpointAttempt] else [])
          ++ [ExecEvent.handlerRun toolName]
      match handler with
      | .ok msg => (afterCp.1, afterCp.2, events, .ok (.success msg))
      | .thrown msg => (afterCp.1, afterCp.2, events, .error msg)

/-- The structured tool result returned to the conversation loop. -/
structure ToolResult where
  name : String
  response : ToolResponseBody
deriving DecidableEq

/-- `execute`: run `executeTool` and convert any thrown fault into a
structured `{error}` response, so a failing tool never terminates the
session. -/
def execute (toolName : String) (hasRoot : Bool) (es : EditorStateM) (timestamp : Nat)
    (saveFails : Bool) (handler : HandlerOutcome) (store : List CheckpointRecord) :
    List CheckpointRecord × List String × List ExecEvent × ToolResult :=
  match executeTool toolName hasRoot es timestamp saveFails handler store with
  | (store1, log, events, .ok body) => (store1, log, events, { name := toolName, response := body })
  | (store1, log, events, .error msg) =>
    (store1, log, events,
      { name := toolName,
        response := .error ("Error executing tool " ++ toolName ++ ": " ++ msg) })

/-- A message part of a conversation history entry. -/
inductive PartM where
  | text : String → PartM
  | functionCall : String → PartM
  | functionResponse : String → ToolResponseBody → PartM
deriving DecidableEq

/-- One history turn. -/
structure HistEntry where
  role : String
  parts : List PartM
deriving DecidableEq

/-- Run the requested tool calls in order, threading the checkpoint
store, collecting the dispatch events and structured results. -/
def runCalls (hasRoot : Bool) (es : EditorStateM) (timestamp : Nat) (saveFails : Bool)
    (handlers : String → HandlerOutcome) :
    List String → List CheckpointRecord →
      List CheckpointRecord × List ExecEvent × List ToolResult
  | [], store => (store, [], [])
  | c :: cs, store =>
    let r := execute c hasRoot es timestamp saveFails (handlers c) store
    let rest := runCalls hasRoot es timestamp saveFails handlers cs r.1
    (rest.1, r.2.2.1 ++ rest.2.1, r.2.2.2 :: rest.2.2)

/-- Result of one iteration of the conversation loop body of
`_performApiCall`. -/
structure IterationResult where
  history : List HistEntry
  continueLoop : Bool
  store : List CheckpointRecord
  events : List ExecEvent
deriving DecidableEq

/-- One iteration of the `_performApiCall` loop after the stream ended:
append the model turn, and when tool calls were requested execute each
one, append every structured result (errors included) to the history as
a tool-result turn, and continue the loop; with no calls the loop
ends. -/
def performIteration (history : List HistEntry) (modelText : String) (calls : List String)
    (cancelled : Bool) (hasRoot : Bool) (es : EditorStateM) (timestamp : Nat)
    (saveFails : Bool) (handlers : String → HandlerOutcome)
    (store : List CheckpointRecord) : IterationResult :=
  let modelParts := (if modelText = "" then [] else [PartM.text modelText])
      ++ calls.map PartM.functionCall
  let h1 := if modelParts.isEmpty then history
      else history ++ [{ role := "model", parts := modelParts }]
  if calls.isEmpty then { history := h1, continueLoop := false, store := store, events := [] }
  else
    let r := runCalls hasRoot es timestamp saveFails handlers calls store
    let responseParts := r.2.2.map (fun tr => PartM.functionResponse tr.name tr.response)
    let h2 := h1 ++ [{ role := "user", parts := responseParts }]
    { history := h2, continueLoop := !cancelled, store := r.1, events := r.2.1 }

end ToolExec

namespace Tracker

/-- The single-slot failure tracker of the chat service. -/
structure ErrorTracker where
  filePath : Option String
  errorSignature : Option String
  count : Nat
deriving DecidableEq

/-- The tracker as initialised (and as left by a reset). -/
def initTracker : ErrorTracker := { filePath := none, errorSignature := none, count := 0 }

/-- `trackError`: increment on the same `(path, signature)` pair,
otherwise start over at 1 for the new pair. -/
def trackError (t : ErrorTracker) (path sig : String) : ErrorTracker :=
  if t.filePath = some path ∧ t.errorSignature = some sig then
    { t with count := t.count + 1 }
  else
    { filePath := some path, errorSignature := some sig, count := 1 }

/-- `getConsecutiveErrorCount`: the stored count if the pair matches,
else 0. -/
def getConsecutiveErrorCount (t : ErrorTracker) (path sig : String) : Nat :=
  if t.filePath = some path ∧ t.errorSignature = some sig then t.count else 0

/-- `resetErrorTracker`. -/
def resetErrorTracker (_t : ErrorTracker) : ErrorTracker := initTracker

/-- The circuit-breaker threshold. -/
def MAX_ATTEMPTS : Nat := 3

/-- What the syntax-check block hands back for the tool result. -/
inductive Feedback where
  | stop : Feedback
  | retryAttempt : Nat → Feedback
deriving DecidableEq

/-- The post-edit syntax-check block of `execute` when error-severity
markers persist on the edited file: track the signature, read the
consecutive count, and at the threshold return the terminal STOP
feedback and reset the tracker; below it report the diagnostics with
the attempt number so the model can retry. -/
def syntaxCheckStep (t : ErrorTracker) (path sig : String) : Feedback × ErrorTracker :=
  let t1 := trackError t path sig
  let attemptCount := getConsecutiveErrorCount t1 path sig
  if MAX_ATTEMPTS ≤ attemptCount then (.stop, resetErrorTracker t1)
  else (.retryAttempt attemptCount, t1)

end Tracker

namespace TurnLoop

open Js

/-- The API key manager state: the configured keys, the rotation index,
and the set of keys tried since the last reset (insertion-ordered, one
entry per key). -/
structure KeyState where
  keys : List String
  currentIndex : Nat
  triedKeys : List String
deriving DecidableEq

/-- `Set.prototype.add` on the tried-keys set. -/
def addTried (k : String) (tried : List String) : List String :=
  if k ∈ tried then tried else tried ++ [k]

/-- `getCurrentKey`: return the key at the rotation index, marking it
tried. -/
def getCurrentKey (st : KeyState) : Option String × KeyState :=
  if st.keys.isEmpty then (none, st)
  else
    let k := st.keys.getD st.currentIndex ""
    (some k, { st with triedKeys := addTried k st.triedKeys })

/-- `rotateKey`: advance the rotation index cyclically. -/
def rotateKey (st : KeyState) : KeyState :=
  if st.keys.isEmpty then st
  else { st with currentIndex := (st.currentIndex + 1) % st.keys.length }

/-- `hasTriedAllKeys`: the tried set has grown to the key count. -/
def hasTriedAllKeys (st : KeyState) : Bool :=
  st.keys.length ≤ st.triedKeys.length

/-- `resetTriedKeys`. -/
def resetTriedKeys (st : KeyState) : KeyState := { st with triedKeys := [] }

/-- Where the parts of the next request come from: the user prompt, or
the results of the tool calls of the previous model turn. -/
inductive PromptSource where
  | userPrompt : PromptSource
  | toolResults : List String → PromptSource
deriving DecidableEq

/-- Observable actions of the `sendMessage` loop, in order. -/
inductive LoopEvent where
  | sendRequest : PromptSource → LoopEvent
  | uiMessage : String → LoopEvent
  | toolsExecuted : List String → LoopEvent
  | waitRateLimit : LoopEvent
deriving DecidableEq

/-- The environment of one loop iteration: either the provider attempt
threw, or a stream arrived carrying text and tool calls.  The Boolean
fields record where the user set the cancellation flag: during the
retry wait, during the fragment reads of the stream, or while the tool
calls were running. -/
inductive TurnOutcome where
  | providerFail : Bool → TurnOutcome
  | streamed : JStr → List String → Bool → Bool → TurnOutcome
deriving DecidableEq

def allKeysFailedMsg : String := "All API keys failed. Please check your keys in the settings."

def emptyResponseMsg : String :=
  "[The AI model returned an empty response. Check the tool output and try the request again.]"

def cancelledMsg : String := "Cancelled by user."

def keyFailedRetryMsg : String := "API key failed. Waiting before retrying..."

/-- The `while (running && !this.isCancelled)` loop of
`GeminiChat.sendMessage`.  Returns the emitted events, the final key
state, and whether the loop ended because cancellation was observed. -/
def runLoop : List TurnOutcome → KeyState → Bool → PromptSource →
    List LoopEvent × KeyState × Bool
  | [], st, cancelled, _ => ([], st, cancelled)
  | outcome :: rest, st, cancelled, parts =>
    if cancelled then ([], st, true)
    else
      match outcome with
      | .providerFail cancelDuringWait =>
        let st1 := rotateKey st
        if hasTriedAllKeys st1 then
          ([.sendRequest parts, .uiMessage allKeysFailedMsg], st1, false)
        else
          let st2 := (getCurrentKey st1).2
          let r := runLoop rest st2 cancelDuringWait parts
          (.sendRequest parts :: .uiMessage keyFailedRetryMsg :: .waitRateLimit :: r.1, r.2)
      | .streamed text calls cancelMidStream cancelDuringTools =>
        if cancelMidStream then ([.sendRequest parts], st, true)
        else if calls.isEmpty then
          if text.isEmpty then
            ([.sendRequest parts, .uiMessage emptyResponseMsg], st, false)
          else ([.sendRequest parts], st, false)
        else
          let r := runLoop rest st cancelDuringTools (.toolResults calls)
          (.sendRequest parts :: .toolsExecuted calls :: r.1, r.2)

/-- The key-manager effect of entering `sendMessage`: the session
restart marks the current key tried, then the tried set is reset before
the loop starts. -/
def sendMessageStart (st : KeyState) : KeyState :=
  resetTriedKeys (getCurrentKey st).2

/-- `GeminiChat.sendMessage` around the loop: reset the tried keys, run
the loop from the user prompt, and report the cancellation to the user
when the loop ended cancelled. -/
def sendMessageRun (inputs : List TurnOutcome) (st : KeyState) : List LoopEvent × KeyState :=
  let st0 := sendMessageStart st
  let r := runLoop inputs st0 false .userPrompt
  (r.1 ++ (if r.2.2 then [.uiMessage cancelledMsg] else []), r.2.1)

end TurnLoop

section Claims

open Js

theorem jsSlice_eq_drop_take {α : Type} (l : List α) (lo hi : Int)
    (h1 : 1 ≤ lo) (h2 : lo ≤ hi) (h3 : hi ≤ (l.length : Int)) :
    jsSlice l (lo - 1) hi = (l.drop (lo - 1).toNat).take (hi - lo + 1).toNat := by
  unfold jsSlice jsIndex
  rw [if_neg (by omega), if_neg (by omega)]
  have hhi : min hi.toNat l.length = hi.toNat := by omega
  have hlo : min (lo - 1).toNat l.length = (lo - 1).toNat := by omega
  rw [hhi, hlo, List.drop_take]
  congr 1
  omega

/-- C1: the claim reads "whenever the length of the target exceeds the
configured file-size threshold the engine never attempts diffing and
the reported method is always rewrite".  This is false on the code: the
threshold test reads the size of the ORIGINAL file on disk
(`file.size`), not the target; with a one-byte original under the
threshold and a target longer than the threshold, the engine still
diffs and reports the diff method. -/
theorem claim_C1_counterexample :
    ¬ (∀ (threshold : Nat) (originalContent newContent : Js.JStr),
        threshold < newContent.length →
        (ToolExec.createAndApplyDiff threshold originalContent newContent).attemptedDiff = false
        ∧ (ToolExec.createAndApplyDiff threshold originalContent newContent).method
            = "rewrite") := by
  intro hclaim
  have h := hclaim 1 ['a'] ['x', 'y'] (by decide)
  exact absurd h.2 (by decide)

/-- C1 (amended): whenever the size of the ORIGINAL file exceeds the
configured file-size threshold, the engine never attempts diffing, the
reported method is always rewrite, and the full (stripped) target is
written. -/
theorem claim_C1_amended (threshold : Nat) (originalContent newContent : Js.JStr)
    (hsize : threshold < originalContent.length) :
    (ToolExec.createAndApplyDiff threshold originalContent newContent).attemptedDiff = false
    ∧ (ToolExec.createAndApplyDiff threshold originalContent newContent).method = "rewrite"
    ∧ (ToolExec.createAndApplyDiff threshold originalContent newContent).finalContent
        = ToolExec.stripMarkdownCodeBlock newContent := by
  unfold ToolExec.createAndApplyDiff ToolExec.createAndApplyDiffCore
  rw [if_pos hsize]
  exact ⟨rfl, rfl, rfl⟩

theorem claim_C1_amended_witness :
    (0 < (['a'] : Js.JStr).length)
    ∧ ((ToolExec.createAndApplyDiff 0 ['a'] ['b']).attemptedDiff = false
      ∧ (ToolExec.createAndApplyDiff 0 ['a'] ['b']).method = "rewrite"
      ∧ (ToolExec.createAndApplyDiff 0 ['a'] ['b']).finalContent
          = ToolExec.stripMarkdownCodeBlock ['b']) :=
  ⟨by decide, claim_C1_amended 0 ['a'] ['b'] (by decide)⟩

/-- C2: feeding the post-edit diagnostic tracker the same
`(path, signature)` pair three consecutive times yields the terminal
STOP feedback on the third check, after which the tracker is reset to
empty; feeding a pair and then a different signature resets the
consecutive count to 1 for the new pair. -/
theorem claim_C2 (path sig sig2 : String) (hne : sig ≠ sig2) :
    (Tracker.syntaxCheckStep Tracker.initTracker path sig).1 = .retryAttempt 1
    ∧ (Tracker.syntaxCheckStep (Tracker.syntaxCheckStep Tracker.initTracker path sig).2
        path sig).1 = .retryAttempt 2
    ∧ (Tracker.syntaxCheckStep (Tracker.syntaxCheckStep
          (Tracker.syntaxCheckStep Tracker.initTracker path sig).2 path sig).2 path sig).1
        = .stop
    ∧ (Tracker.syntaxCheckStep (Tracker.syntaxCheckStep
          (Tracker.syntaxCheckStep Tracker.initTracker path sig).2 path sig).2 path sig).2
        = Tracker.initTracker
    ∧ Tracker.getConsecutiveErrorCount
        (Tracker.syntaxCheckStep (Tracker.syntaxCheckStep Tracker.initTracker path sig).2
          path sig2).2 path sig2 = 1 := by
  have h1 : Tracker.syntaxCheckStep Tracker.initTracker path sig
      = (.retryAttempt 1, ⟨some path, some sig, 1⟩) := by
    simp [Tracker.syntaxCheckStep, Tracker.trackError, Tracker.getConsecutiveErrorCount,
      Tracker.initTracker, Tracker.MAX_ATTEMPTS]
  have h2 : Tracker.syntaxCheckStep (⟨some path, some sig, 1⟩ : Tracker.ErrorTracker) path sig
      = (.retryAttempt 2, ⟨some path, some sig, 2⟩) := by
    simp [Tracker.syntaxCheckStep, Tracker.trackError, Tracker.getConsecutiveErrorCount,
      Tracker.MAX_ATTEMPTS]
  have h3 : Tracker.syntaxCheckStep (⟨some path, some sig, 2⟩ : Tracker.ErrorTracker) path sig
      = (.stop, Tracker.initTracker) := by
    simp [Tracker.syntaxCheckStep, Tracker.trackError, Tracker.getConsecutiveErrorCount,
      Tracker.MAX_ATTEMPTS, Tracker.resetErrorTracker]
  have h4 : Tracker.syntaxCheckStep (⟨some path, some sig, 1⟩ : Tracker.ErrorTracker) path sig2
      = (.retryAttempt 1, ⟨some path, some sig2, 1⟩) := by
    simp [Tracker.syntaxCheckStep, Tracker.trackError, Tracker.getConsecutiveErrorCount,
      Tracker.MAX_ATTEMPTS, hne]
  refine ⟨by rw [h1], by rw [h1, h2], by rw [h1, h2, h3], by rw [h1, h2, h3], ?_⟩
  rw [h1, h4]
  simp [Tracker.getConsecutiveErrorCount]

theorem claim_C2_witness :
    (("L3:missing semicolon" : String) ≠ "L7:unexpected token")
    ∧ ((Tracker.syntaxCheckStep Tracker.initTracker "src/app.ts" "L3:missing semicolon").1
          = .retryAttempt 1
      ∧ (Tracker.syntaxCheckStep (Tracker.syntaxCheckStep Tracker.initTracker "src/app.ts"
            "L3:missing semicolon").2 "src/app.ts" "L3:missing semicolon").1 = .retryAttempt 2
      ∧ (Tracker.syntaxCheckStep (Tracker.syntaxCheckStep
            (Tracker.syntaxCheckStep Tracker.initTracker "src/app.ts" "L3:missing semicolon").2
            "src/app.ts" "L3:missing semicolon").2 "src/app.ts" "L3:missing semicolon").1 = .stop
      ∧ (Tracker.syntaxCheckStep (Tracker.syntaxCheckStep
            (Tracker.syntaxCheckStep Tracker.initTracker "src/app.ts" "L3:missing semicolon").2
            "src/app.ts" "L3:missing semicolon").2 "src/app.ts" "L3:missing semicolon").2
          = Tracker.initTracker
      ∧ Tracker.getConsecutiveErrorCount
          (Tracker.syntaxCheckStep (Tracker.syntaxCheckStep Tracker.initTracker "src/app.ts"
            "L3:missing semicolon").2 "src/app.ts" "L7:unexpected token").2
          "src/app.ts" "L7:unexpected token" = 1) :=
  ⟨by decide, claim_C2 "src/app.ts" "L3:missing semicolon" "L7:unexpected token" (by decide)⟩

/-- C3: applying the patch produced by the diff engine from `A` and `B`
back onto `A` yields exactly `B` with every hunk successful, for all
blobs; and in the concrete scenario (original `a\n b\n c\n`, target with
the middle line replaced, 1 MB threshold) the method is diff, one hunk
is produced, it succeeds, and the result equals the target. -/
theorem claim_C3 :
    (∀ A B : Js.JStr,
        DiffEngine.applyPatch (DiffEngine.makePatch A B) A
          = (B, List.replicate (DiffEngine.makePatch A B).length true))
    ∧ (DiffEngine.makePatch ['a','\n','b','\n','c','\n'] ['a','\n','X','\n','c','\n']).length = 1
    ∧ (ToolExec.createAndApplyDiff 1048576 ['a','\n','b','\n','c','\n']
        ['a','\n','X','\n','c','\n']).method = "diff"
    ∧ (ToolExec.createAndApplyDiff 1048576 ['a','\n','b','\n','c','\n']
        ['a','\n','X','\n','c','\n']).finalContent = ['a','\n','X','\n','c','\n']
    ∧ (DiffEngine.applyPatch
        (DiffEngine.makePatch ['a','\n','b','\n','c','\n'] ['a','\n','X','\n','c','\n'])
        ['a','\n','b','\n','c','\n']).2 = [true] :=
  ⟨DiffEngine.applyPatch_makePatch, by decide, by decide, by decide, by decide⟩

/-- C10: with `start_line ≤ end_line`, `read_file_lines` never fails:
it equals the clamped-range reading (clamp to `[1, number of lines]`,
join the clamped lines, empty content when the clamped range is
empty). -/
theorem claim_C10 (content : Js.JStr) (startLine endLine : Int)
    (hle : startLine ≤ endLine) :
    ToolExec.readFileLines content startLine endLine
      = .ok (ToolExec.readFileLinesSpec content startLine endLine)
    ∧ (min ((Js.splitNl content).length : Int) endLine < max 1 startLine →
        ToolExec.readFileLines content startLine endLine = .ok []) := by
  constructor
  · unfold ToolExec.readFileLines ToolExec.readFileLinesSpec
    rw [if_neg (by omega)]
    by_cases hc : min ((Js.splitNl content).length : Int) endLine < max 1 startLine
    · rw [if_pos hc, if_pos hc]
    · rw [if_neg hc, if_neg hc]
      have heq := jsSlice_eq_drop_take (Js.splitNl content) (max 1 startLine)
        (min ((Js.splitNl content).length : Int) endLine)
        (by omega) (by omega) (by omega)
      rw [heq]
  · intro hc
    unfold ToolExec.readFileLines
    rw [if_neg (by omega), if_pos hc]

theorem claim_C10_witness :
    ((-5 : Int) ≤ 100)
    ∧ (ToolExec.readFileLines ['a','\n','b'] (-5) 100
        = .ok (ToolExec.readFileLinesSpec ['a','\n','b'] (-5) 100)
      ∧ (min ((Js.splitNl ['a','\n','b']).length : Int) 100 < max 1 (-5) →
          ToolExec.readFileLines ['a','\n','b'] (-5) 100 = .ok [])) :=
  ⟨by decide, claim_C10 ['a','\n','b'] (-5) 100 (by decide)⟩

/-- C4: for every tool invocation whose descriptor is marked as
creating a checkpoint, with a workspace open the checkpoint manager
runs synchronously before the tool handler; a record is added to the
store unless the open-file set is empty (then none is created), and a
failure while saving the checkpoint is logged but never blocks the
handler from running. -/
theorem claim_C4 (toolName : String) (desc : ToolExec.ToolDescriptor)
    (es : ToolExec.EditorStateM) (timestamp : Nat) (saveFails : Bool)
    (handler : ToolExec.HandlerOutcome) (store : List ToolExec.CheckpointRecord)
    (hlookup : ToolExec.lookupTool toolName = some desc)
    (hcp : desc.createsCheckpoint = true) :
    (ToolExec.executeTool toolName true es timestamp saveFails handler store).2.2.1
        = [ToolExec.ExecEvent.checkpointAttempt, ToolExec.ExecEvent.handlerRun toolName]
    ∧ (es.openFiles ≠ [] → saveFails = false →
        (ToolExec.executeTool toolName true es timestamp saveFails handler store).1
          = store ++ [{ name := "Auto-Checkpoint", openFiles := es.openFiles,
                        timestamp := timestamp }])
    ∧ (es.openFiles = [] →
        (ToolExec.executeTool toolName true es timestamp saveFails handler store).1 = store)
    ∧ (saveFails = true →
        (ToolExec.executeTool toolName true es timestamp saveFails handler store).1 = store
        ∧ (es.openFiles ≠ [] →
            (ToolExec.executeTool toolName true es timestamp saveFails handler store).2.1
              = ["Failed to create automatic checkpoint"])) := by
  refine ⟨?_, ?_, ?_, ?_⟩
  · cases handler <;> simp [ToolExec.executeTool, hlookup, hcp]
  · intro hopen hsf
    cases handler <;>
      simp [ToolExec.executeTool, hlookup, hcp, ToolExec.createAutomaticCheckpoint, hsf,
        List.length_pos.mpr hopen]
  · intro hopen
    cases handler <;>
      simp [ToolExec.executeTool, hlookup, hcp, ToolExec.createAutomaticCheckpoint, hopen]
  · intro hsf
    constructor
    · cases handler <;>
        (simp [ToolExec.executeTool, hlookup, hcp, ToolExec.createAutomaticCheckpoint, hsf] <;>
          split <;> rfl)
    · intro hopen
      cases handler <;>
        simp [ToolExec.executeTool, hlookup, hcp, ToolExec.createAutomaticCheckpoint, hsf,
          List.length_pos.mpr hopen]

theorem claim_C4_witness :
    (ToolExec.lookupTool "create_file" = some ⟨true, true⟩)
    ∧ ((⟨true, true⟩ : ToolExec.ToolDescriptor).createsCheckpoint = true)
    ∧ ((ToolExec.executeTool "create_file" true ⟨["main.js"]⟩ 7 false (.ok "written") []).2.2.1
        = [ToolExec.ExecEvent.checkpointAttempt, ToolExec.ExecEvent.handlerRun "create_file"]
      ∧ ((["main.js"] : List String) ≠ [] → false = false →
          (ToolExec.executeTool "create_file" true ⟨["main.js"]⟩ 7 false (.ok "written") []).1
            = [] ++ [{ name := "Auto-Checkpoint", openFiles := ["main.js"], timestamp := 7 }])
      ∧ ((["main.js"] : List String) = [] →
          (ToolExec.executeTool "create_file" true ⟨["main.js"]⟩ 7 false (.ok "written") []).1
            = [])
      ∧ (false = true →
          (ToolExec.executeTool "create_file" true ⟨["main.js"]⟩ 7 false (.ok "written") []).1
              = []
          ∧ ((["main.js"] : List String) ≠ [] →
              (ToolExec.executeTool "create_file" true ⟨["main.js"]⟩ 7 false
                (.ok "written") []).2.1 = ["Failed to create automatic checkpoint"]))) :=
  ⟨by decide, by decide,
    claim_C4 "create_file" ⟨true, true⟩ ⟨["main.js"]⟩ 7 false (.ok "written") []
      (by decide) (by decide)⟩

/-- C5: a streamed turn that ends with zero tool invocations finishes
the loop (the remaining turn inputs are never consumed and the loop is
not cancelled) when the accumulated text is non-empty; when the text is
also empty, the controller additionally surfaces the empty-response
error message to the user instead of finishing silently. -/
theorem claim_C5 (rest : List TurnLoop.TurnOutcome) (st : TurnLoop.KeyState)
    (parts : TurnLoop.PromptSource) (text : Js.JStr) (hne : text ≠ []) :
    TurnLoop.runLoop (TurnLoop.TurnOutcome.streamed text [] false false :: rest) st false parts
      = ([TurnLoop.LoopEvent.sendRequest parts], st, false)
    ∧ TurnLoop.runLoop (TurnLoop.TurnOutcome.streamed [] [] false false :: rest) st false parts
      = ([TurnLoop.LoopEvent.sendRequest parts,
          TurnLoop.LoopEvent.uiMessage TurnLoop.emptyResponseMsg], st, false) := by
  constructor
  · simp [TurnLoop.runLoop, List.isEmpty_iff, hne]
  · simp [TurnLoop.runLoop]

theorem claim_C5_witness :
    ((['h', 'i'] : Js.JStr) ≠ [])
    ∧ (TurnLoop.runLoop [TurnLoop.TurnOutcome.streamed ['h', 'i'] [] false false]
          ⟨["k"], 0, []⟩ false .userPrompt
        = ([TurnLoop.LoopEvent.sendRequest .userPrompt], ⟨["k"], 0, []⟩, false)
      ∧ TurnLoop.runLoop [TurnLoop.TurnOutcome.streamed [] [] false false]
          ⟨["k"], 0, []⟩ false .userPrompt
        = ([TurnLoop.LoopEvent.sendRequest .userPrompt,
            TurnLoop.LoopEvent.uiMessage TurnLoop.emptyResponseMsg], ⟨["k"], 0, []⟩, false)) :=
  ⟨by decide, claim_C5 [] ⟨["k"], 0, []⟩ .userPrompt ['h', 'i'] (by decide)⟩

/-- C6: dispatching the unknown tool name `delete_everything` yields a
structured error response instead of propagating the thrown fault
(`executeTool` throws, `execute` converts it), the error is still
appended to the conversation history as a tool result, and the loop
continues instead of terminating the session. -/
theorem claim_C6 :
    ToolExec.executeTool "delete_everything" true ⟨[]⟩ 0 false (.ok "unused") []
      = ([], [], [], .error "Unknown tool delete_everything.")
    ∧ ToolExec.execute "delete_everything" true ⟨[]⟩ 0 false (.ok "unused") []
      = ([], [], [], ⟨"delete_everything",
          .error "Error executing tool delete_everything: Unknown tool delete_everything."⟩)
    ∧ (ToolExec.performIteration [] "" ["delete_everything"] false true ⟨[]⟩ 0 false
        (fun _ => .ok "unused") []).history
      = [{ role := "model", parts := [.functionCall "delete_everything"] },
         { role := "user", parts := [.functionResponse "delete_everything"
            (.error "Error executing tool delete_everything: Unknown tool delete_everything.")] }]
    ∧ (ToolExec.performIteration [] "" ["delete_everything"] false true ⟨[]⟩ 0 false
        (fun _ => .ok "unused") []).continueLoop = true
    ∧ (ToolExec.performIteration [] "" ["delete_everything"] false true ⟨[]⟩ 0 false
        (fun _ => .ok "unused") []).store = [] :=
  ⟨by decide, by decide, by decide, by decide, by decide⟩

/-- C7: a provider-level failure advances to the next configured
credential and retries the same logical turn (identical prompt parts)
after the rate-limit wait; once every credential has been tried since
the last reset, the loop reports total failure and stops with no
further request; and a new user-initiated send resets the tried set. -/
theorem claim_C7 (rest : List TurnLoop.TurnOutcome) (st : TurnLoop.KeyState)
    (parts : TurnLoop.PromptSource) (cancelDuringWait : Bool)
    (hkeys : st.keys ≠ []) :
    (TurnLoop.rotateKey st).currentIndex = (st.currentIndex + 1) % st.keys.length
    ∧ (TurnLoop.hasTriedAllKeys (TurnLoop.rotateKey st) = false →
        TurnLoop.runLoop (.providerFail cancelDuringWait :: rest) st false parts
          = (TurnLoop.LoopEvent.sendRequest parts
              :: TurnLoop.LoopEvent.uiMessage TurnLoop.keyFailedRetryMsg
              :: TurnLoop.LoopEvent.waitRateLimit
              :: (TurnLoop.runLoop rest
                    (TurnLoop.getCurrentKey (TurnLoop.rotateKey st)).2 cancelDuringWait parts).1,
             (TurnLoop.runLoop rest
                (TurnLoop.getCurrentKey (TurnLoop.rotateKey st)).2 cancelDuringWait parts).2))
    ∧ (TurnLoop.hasTriedAllKeys (TurnLoop.rotateKey st) = true →
        TurnLoop.runLoop (.providerFail cancelDuringWait :: rest) st false parts
          = ([TurnLoop.LoopEvent.sendRequest parts,
              TurnLoop.LoopEvent.uiMessage TurnLoop.allKeysFailedMsg],
             TurnLoop.rotateKey st, false))
    ∧ (TurnLoop.sendMessageStart st).triedKeys = [] := by
  refine ⟨?_, ?_, ?_, rfl⟩
  · simp [TurnLoop.rotateKey, List.isEmpty_iff, hkeys]
  · intro hnot
    simp [TurnLoop.runLoop, hnot]
  · intro hall
    simp [TurnLoop.runLoop, hall]

theorem claim_C7_witness :
    ((["k1", "k2"] : List String) ≠ [])
    ∧ ((TurnLoop.rotateKey ⟨["k1", "k2"], 0, []⟩).currentIndex = (0 + 1) % 2
      ∧ (TurnLoop.hasTriedAllKeys (TurnLoop.rotateKey ⟨["k1", "k2"], 0, []⟩) = false →
          TurnLoop.runLoop [.providerFail false] ⟨["k1", "k2"], 0, []⟩ false .userPrompt
            = (TurnLoop.LoopEvent.sendRequest .userPrompt
                :: TurnLoop.LoopEvent.uiMessage TurnLoop.keyFailedRetryMsg
                :: TurnLoop.LoopEvent.waitRateLimit
                :: (TurnLoop.runLoop []
                      (TurnLoop.getCurrentKey
                        (TurnLoop.rotateKey ⟨["k1", "k2"], 0, []⟩)).2 false .userPrompt).1,
               (TurnLoop.runLoop []
                  (TurnLoop.getCurrentKey
                    (TurnLoop.rotateKey ⟨["k1", "k2"], 0, []⟩)).2 false .userPrompt).2))
      ∧ (TurnLoop.hasTriedAllKeys (TurnLoop.rotateKey ⟨["k1", "k2"], 0, []⟩) = true →
          TurnLoop.runLoop [.providerFail false] ⟨["k1", "k2"], 0, []⟩ false .userPrompt
            = ([TurnLoop.LoopEvent.sendRequest .userPrompt,
                TurnLoop.LoopEvent.uiMessage TurnLoop.allKeysFailedMsg],
               TurnLoop.rotateKey ⟨["k1", "k2"], 0, []⟩, false))
      ∧ (TurnLoop.sendMessageStart ⟨["k1", "k2"], 0, []⟩).triedKeys = []) :=
  ⟨by decide, claim_C7 [] ⟨["k1", "k2"], 0, []⟩ .userPrompt false (by decide)⟩

/-- C8: once the cancellation flag is observed at a suspension point
the loop exits without sending any further request: observed at the
loop head it exits immediately; observed mid-stream the turn stops
after the one request; set while tool calls run, the started tools
still complete (the execution event is emitted) but their results are
discarded (no request carrying them follows) and the controller
reports Cancelled to the user. -/
theorem claim_C8 (inputs rest : List TurnLoop.TurnOutcome) (st : TurnLoop.KeyState)
    (parts : TurnLoop.PromptSource) (text : Js.JStr) (calls : List String)
    (hcalls : calls ≠ []) :
    TurnLoop.runLoop inputs st true parts = ([], st, true)
    ∧ TurnLoop.runLoop (.streamed text calls true false :: rest) st false parts
        = ([TurnLoop.LoopEvent.sendRequest parts], st, true)
    ∧ TurnLoop.runLoop (.streamed text calls false true :: rest) st false parts
        = ([TurnLoop.LoopEvent.sendRequest parts, TurnLoop.LoopEvent.toolsExecuted calls],
           st, true)
    ∧ (TurnLoop.sendMessageRun (.streamed text calls false true :: rest) st).1
        = [TurnLoop.LoopEvent.sendRequest .userPrompt, TurnLoop.LoopEvent.toolsExecuted calls,
           TurnLoop.LoopEvent.uiMessage TurnLoop.cancelledMsg] := by
  have hhead : ∀ (ins : List TurnLoop.TurnOutcome) (st1 : TurnLoop.KeyState)
      (p : TurnLoop.PromptSource), TurnLoop.runLoop ins st1 true p = ([], st1, true) := by
    intro ins st1 p
    cases ins with
    | nil => rfl
    | cons i ins => simp [TurnLoop.runLoop]
  have htools : ∀ (st1 : TurnLoop.KeyState) (p : TurnLoop.PromptSource),
      TurnLoop.runLoop (.streamed text calls false true :: rest) st1 false p
        = ([TurnLoop.LoopEvent.sendRequest p, TurnLoop.LoopEvent.toolsExecuted calls],
           st1, true) := by
    intro st1 p
    simp [TurnLoop.runLoop, List.isEmpty_iff, hcalls, hhead]
  refine ⟨hhead inputs st parts, ?_, htools st parts, ?_⟩
  · simp [TurnLoop.runLoop]
  · simp [TurnLoop.sendMessageRun, htools]

theorem claim_C8_witness :
    ((["rewrite_file"] : List String) ≠ [])
    ∧ (TurnLoop.runLoop [] ⟨["k"], 0, []⟩ true .userPrompt = ([], ⟨["k"], 0, []⟩, true)
      ∧ TurnLoop.runLoop [.streamed ['t'] ["rewrite_file"] true false] ⟨["k"], 0, []⟩
          false .userPrompt
        = ([TurnLoop.LoopEvent.sendRequest .userPrompt], ⟨["k"], 0, []⟩, true)
      ∧ TurnLoop.runLoop [.streamed ['t'] ["rewrite_file"] false true] ⟨["k"], 0, []⟩
          false .userPrompt
        = ([TurnLoop.LoopEvent.sendRequest .userPrompt,
            TurnLoop.LoopEvent.toolsExecuted ["rewrite_file"]], ⟨["k"], 0, []⟩, true)
      ∧ (TurnLoop.sendMessageRun [.streamed ['t'] ["rewrite_file"] false true]
          ⟨["k"], 0, []⟩).1
        = [TurnLoop.LoopEvent.sendRequest .userPrompt,
           TurnLoop.LoopEvent.toolsExecuted ["rewrite_file"],
           TurnLoop.LoopEvent.uiMessage TurnLoop.cancelledMsg]) :=
  ⟨by decide, claim_C8 [] [] ⟨["k"], 0, []⟩ .userPrompt ['t'] ["rewrite_file"] (by decide)⟩

/-- C9: for every content-writing tool (`create_file`, `rewrite_file`,
`insert_content`, `replace_lines`, `replace_selected_text`,
`create_and_apply_diff`), a content string entirely wrapped in a
markdown code fence has only the inner code between the fences written
to the file or editor, and any other string content is written
unchanged. -/
theorem claim_C9 (lang inner content orig : Js.JStr) (lineNumber startLine endLine : Int)
    (threshold : Nat)
    (hlang : lang.all ToolExec.isWordCharJs = true) (hinner : inner ≠ [])
    (hnf : ¬ ToolExec.IsFencedWrapped content) :
    ToolExec.stripMarkdownCodeBlock (ToolExec.fenceWrap lang inner) = inner
    ∧ ToolExec.stripMarkdownCodeBlock content = content
    ∧ ToolExec.createFileContent (ToolExec.fenceWrap lang inner) = inner
    ∧ ToolExec.createFileContent content = content
    ∧ ToolExec.rewriteFileContent (ToolExec.fenceWrap lang inner) = inner
    ∧ ToolExec.rewriteFileContent content = content
    ∧ ToolExec.replaceSelectedText (ToolExec.fenceWrap lang inner) = inner
    ∧ ToolExec.replaceSelectedText content = content
    ∧ ToolExec.insertContentResult orig lineNumber (ToolExec.fenceWrap lang inner)
        = ToolExec.insertContentCore orig lineNumber inner
    ∧ ToolExec.insertContentResult orig lineNumber content
        = ToolExec.insertContentCore orig lineNumber content
    ∧ ToolExec.replaceLinesResult orig startLine endLine (ToolExec.fenceWrap lang inner)
        = ToolExec.replaceLinesCore orig startLine endLine inner
    ∧ ToolExec.replaceLinesResult orig startLine endLine content
        = ToolExec.replaceLinesCore orig startLine endLine content
    ∧ ToolExec.createAndApplyDiff threshold orig (ToolExec.fenceWrap lang inner)
        = ToolExec.createAndApplyDiffCore threshold orig inner
    ∧ ToolExec.createAndApplyDiff threshold orig content
        = ToolExec.createAndApplyDiffCore threshold orig content := by
  have h1 := ToolExec.strip_fenceWrap lang inner hlang hinner
  have h2 := ToolExec.strip_eq_self_of_not_fenced content hnf
  exact ⟨h1, h2, h1, h2, h1, h2, h1, h2,
    by rw [ToolExec.insertContentResult, h1],
    by rw [ToolExec.insertContentResult, h2],
    by rw [ToolExec.replaceLinesResult, h1],
    by rw [ToolExec.replaceLinesResult, h2],
    by rw [ToolExec.createAndApplyDiff, h1],
    by rw [ToolExec.createAndApplyDiff, h2]⟩

theorem claim_C9_witness :
    ((['j', 's'] : Js.JStr).all ToolExec.isWordCharJs = true)
    ∧ ((['x'] : Js.JStr) ≠ [])
    ∧ (¬ ToolExec.IsFencedWrapped ['h', 'i'])
    ∧ ToolExec.stripMarkdownCodeBlock (ToolExec.fenceWrap ['j', 's'] ['x']) = ['x']
    ∧ ToolExec.stripMarkdownCodeBlock ['h', 'i'] = ['h', 'i'] := by
  have hnf : ¬ ToolExec.IsFencedWrapped ['h', 'i'] := by
    rintro ⟨lang, inner, -, -, heq⟩
    have hlen := congrArg List.length heq
    simp [ToolExec.fenceWrap, ToolExec.fenceClose] at hlen
  have h := claim_C9 ['j', 's'] ['x'] ['h', 'i'] ['o'] 1 1 1 10 (by decide) (by decide) hnf
  exact ⟨by decide, by decide, hnf, h.1, h.2.1⟩

end Claims
